import Mathlib

/-!
Verification of the Face-Recognition attendance system core against its
specification.  The Python source is shallowly embedded:

* `recognizer.py` — the gallery matcher `Recognizer.compare` (decision over a
  list of cosine similarities: `np.argmax`, `sorted(...)[-2]`, threshold and
  margin test);
* `app.py` — the per-frame handler `handle_recognition_detection` and the
  bounded multi-frame decision loop in `main`;
* `similarity_transforms.py` — `_umeyama` and `SimilarityTransform.estimate`.

Floating point values are modelled as exact rationals; a Python exception is
modelled as `Except.error`; the all-NaN sentinel matrix of `_umeyama` is
modelled as `Option.none`.
-/

namespace FaceRec

open scoped List

/-! ## Gallery matcher (`recognizer.py`) -/

/-- `THRESHOLD = 0.45` from `recognizer.py`. -/
def THRESHOLD : ℚ := 45 / 100

/-- `MIN_SIMILARITY_DIFFERENCE = 0.1` from `recognizer.py`. -/
def MIN_SIMILARITY_DIFFERENCE : ℚ := 1 / 10

/-- One row of `embedding_dict` built by `DBManager.fetch_embeddings_data`:
the pair `[user_data.id, user_data.username]`. -/
structure GalleryEntry where
  userId : Nat
  username : String
deriving DecidableEq, Repr, Inhabited

/-- Result of `Recognizer.compare`: either `embedding_dict[max_idx]` with the
flag `1` appended (`matched`), or the literal `[None, 'Unknown']`. -/
inductive MatchResult
  | matched (userId : Nat) (username : String)
  | unknown
deriving DecidableEq, Repr

/-- Tail of `np.argmax`: scan the remaining list keeping the first index of the
strictly largest value seen so far (`cur` is the running maximum, `best` its
index, `i` the index of the head of the remaining list). -/
def npArgmaxGo : List ℚ → ℚ → Nat → Nat → Nat
  | [], _, _, best => best
  | x :: xs, cur, i, best =>
      if cur < x then npArgmaxGo xs x (i + 1) i
      else npArgmaxGo xs cur (i + 1) best

/-- `np.argmax` on a non-empty list: index of the first occurrence of the
maximum.  (On the empty list NumPy raises; callers guard that case.) -/
def npArgmax : List ℚ → Nat
  | [] => 0
  | x :: xs => npArgmaxGo xs x 1 0

/-- Python's `sorted` (ascending). -/
def pySorted (l : List ℚ) : List ℚ := l.insertionSort (· ≤ ·)

/-- `second_max_similarity` as computed by `Recognizer.compare`: initialised to
`0`, replaced by `sorted(similarities)[-2]` when the list has at least two
elements. -/
def secondMaxSimilarity (sims : List ℚ) : ℚ :=
  if 2 ≤ sims.length then (pySorted sims).getD (sims.length - 2) 0 else 0

/-- Decision core of `Recognizer.compare` once the similarity list has been
computed (`recognizer.py` lines 63–74).  `np.argmax` of an empty sequence
raises `ValueError`; an out-of-range `embedding_dict[max_idx]` would raise
`IndexError`. -/
def compareSims (sims : List ℚ) (dict : List GalleryEntry) :
    Except String MatchResult :=
  if sims.isEmpty then
    .error "ValueError: attempt to get argmax of an empty sequence"
  else
    let maxIdx := npArgmax sims
    let maxSimilarity := sims.getD maxIdx 0
    let secondMax := secondMaxSimilarity sims
    if THRESHOLD < maxSimilarity ∧
        MIN_SIMILARITY_DIFFERENCE < maxSimilarity - secondMax then
      match dict.get? maxIdx with
      | some e => .ok (.matched e.userId e.username)
      | none => .error "IndexError: list index out of range"
    else
      .ok .unknown

/-- `Recognizer.compare`: fetches `(embeddings, embedding_dict)` (here passed
as arguments), maps `cosine_similarity(embedding, ·)` over the gallery
embeddings, then decides.  The cosine itself (a dot product of L2-normalised
float vectors) is abstracted as the function `sim`. -/
def compare {α : Type} (sim : α → α → ℚ) (embedding : α)
    (embeddings : List α) (embedding_dict : List GalleryEntry) :
    Except String MatchResult :=
  compareSims (embeddings.map (sim embedding)) embedding_dict

/-- The specification's "second best": `-1` when the gallery has fewer than two
entries, otherwise the largest similarity after removing one occurrence of the
maximum `b`.  (For a singleton list, `erase b` is empty and the default `-1`
applies; for two or more entries the erased list is non-empty.)  This
definition follows the spec's words and is compared against the source's
`secondMaxSimilarity`. -/
def specSecondBest (l : List ℚ) (b : ℚ) : ℚ :=
  ((l.erase b).maximum).getD (-1)

/-! ## Per-frame handler (`app.py`, `handle_recognition_detection`) -/

/-- One detected face as consumed by `app.py`: the bounding box after
`map(int, box)`.  (Landmarks and detection score do not influence the
modelled control flow.) -/
structure Face where
  x : Int
  y : Int
  w : Int
  h : Int
deriving DecidableEq, Repr

/-- `handle_recognition_detection(frame)` from `app.py`.  `faces` is the
detector's output; the alignment → embedding → `Recognizer.compare` chain on
the first face is the abstracted composition `pipeline` (it yields the match
result, or a propagated exception).  `name` is initialised to `"Unknown"`,
but `x, y, w, h` are bound only inside `if faces:`; with an empty face list
the final `return name, x, y, w, h` reads the unbound local `x`, so Python
raises `UnboundLocalError`. -/
def handle_recognition_detection
    (pipeline : Face → Except String MatchResult) (faces : List Face) :
    Except String (String × Int × Int × Int × Int) :=
  match faces with
  | [] =>
      .error "UnboundLocalError: local variable x referenced before assignment"
  | f :: _ =>
      match pipeline f with
      | .error e => .error e
      | .ok r =>
          let name := match r with
            | .matched _ nm => nm
            | .unknown => "Unknown"
          .ok (name, f.x, f.y, f.w, f.h)

/-! ## Attendance decision loop (`app.py`, `main`) -/

/-- `email.split("@")[0]`: the prefix of the e-mail before the first `@`. -/
def nameOf (email : String) : String :=
  String.mk (email.toList.takeWhile (· ≠ '@'))

/-- The loop state of `main`: `frame_count`, `recognized_name` (`none` models
a Python local that has not been assigned yet) and `recognized_email`. -/
structure LoopState where
  frameCount : Nat
  recognizedName : Option String
  recognizedEmail : String
deriving DecidableEq, Repr

/-- State before the `while True:` loop: `frame_count = 0`,
`recognized_email = ""`, `recognized_name` unbound. -/
def initState : LoopState := ⟨0, none, ""⟩

/-- Terminal outcome of the loop: the `break` at frame 40 (accepted) or the
`break` after the failure message (timeout). -/
inductive Outcome
  | accepted
  | timeoutFailed
deriving DecidableEq, Repr

/-- One iteration body up to the break checks: `frame_count += 1`; when
`frame_count >= 35`, run the per-frame recognition (its candidate e-mail for
frame `i` is `candidates i`) and overwrite `recognized_name` and
`recognized_email`. -/
def stepFrame (candidates : Nat → String) (s : LoopState) : LoopState :=
  if 35 ≤ s.frameCount + 1 then
    ⟨s.frameCount + 1, some (nameOf (candidates (s.frameCount + 1))),
      candidates (s.frameCount + 1)⟩
  else
    ⟨s.frameCount + 1, s.recognizedName, s.recognizedEmail⟩

/-- The two break checks at the bottom of the loop body
(`if frame_count == 40 and recognized_name != "Unknown": break` and
`if frame_count >= 50 and recognized_name == "Unknown": break`).  Python's
`and` short-circuits, so `recognized_name` is read only when the frame-count
test passes — and then `stepFrame` has always assigned it, since both 40 and
50 are ≥ 35. -/
def breakCheck (s : LoopState) : Option Outcome :=
  if s.frameCount = 40 ∧ s.recognizedName ≠ some "Unknown" then
    some .accepted
  else if 50 ≤ s.frameCount ∧ s.recognizedName = some "Unknown" then
    some .timeoutFailed
  else
    none

/-- Run the `while True:` loop for at most `fuel` iterations.  `none` means
the loop has not terminated within that many frames. -/
def run (candidates : Nat → String) :
    Nat → LoopState → Option (Outcome × LoopState)
  | 0, _ => none
  | fuel + 1, s =>
      match breakCheck (stepFrame candidates s) with
      | some o => some (o, stepFrame candidates s)
      | none => run candidates fuel (stepFrame candidates s)

/-- The whole session loop started at `frame_count = 0`. -/
def runMain (candidates : Nat → String) (fuel : Nat) :
    Option (Outcome × LoopState) :=
  run candidates fuel initState

/-- After the loop, `post_attendance` is called iff
`recognized_name != "Unknown"`. -/
def sinkCalled (r : Outcome × LoopState) : Bool :=
  r.2.recognizedName != some "Unknown"

/-- Candidate stream that defeats the loop's break conditions: Unknown
through frame 40, a recognised identity from frame 41 on. -/
def lateRecognition : Nat → String :=
  fun i => if i ≤ 40 then "Unknown" else "user@example.com"

/-! ## Similarity transform estimation (`similarity_transforms.py`) -/

/-- 2×2 rational matrix (the linear block). -/
abbrev Mat2 := Matrix (Fin 2) (Fin 2) ℚ

/-- 3×3 homogeneous transform matrix. -/
abbrev Mat3 := Matrix (Fin 3) (Fin 3) ℚ

/-- A 2-D point. -/
abbrev Pt := Fin 2 → ℚ

/-- A 5-point set (an `(M, N) = (5, 2)` array). -/
abbrev Pts5 := Fin 5 → Pt

/-- `src.mean(axis=0)`. -/
def ptsMean (pts : Pts5) : Pt := fun k => (∑ i, pts i k) / 5

/-- `src - src_mean` (row-wise demeaning). -/
def demean (pts : Pts5) : Pts5 := fun i k => pts i k - ptsMean pts k

/-- Eq. (38): `A = dst_demean.T @ src_demean / num`. -/
def covA (src dst : Pts5) : Mat2 :=
  Matrix.of fun j k => (∑ i, demean dst i j * demean src i k) / 5

/-- `src_demean.var(axis=0).sum()`: with zero column means, the sum over
columns of the mean square, i.e. the mean of all squared entries. -/
def srcVar (src : Pts5) : ℚ := (∑ i, ∑ k, demean src i k ^ 2) / 5

/-- `np.linalg.matrix_rank` for a 2×2 matrix in exact arithmetic: 0 for the
zero matrix, 1 when singular but non-zero, else 2. -/
def matrixRank2 (A : Mat2) : Nat :=
  if A = 0 then 0 else if A.det = 0 then 1 else 2

/-- Exact model of `U, S, V = np.linalg.svd(A)` for a 2×2 matrix: NumPy
always returns `U`, singular values `S` (nonnegative, descending) and the
row-transposed factor `V` (here `Vh`) with `A = U @ np.diag(S) @ V` and both
factors orthogonal.  The embedding takes the decomposition as an argument
together with these guarantees. -/
structure SVD2 (A : Mat2) where
  U : Mat2
  S : Fin 2 → ℚ
  Vh : Mat2
  factor : A = U * Matrix.diagonal S * Vh
  orthoU : U * U.transpose = 1
  orthoV : Vh * Vh.transpose = 1
  nonneg : ∀ i, 0 ≤ S i
  descending : S 1 ≤ S 0

/-- Eq. (39): `d = np.ones(2)`, with `d[1] = -1` when `det(A) < 0`. -/
def signVec (A : Mat2) : Fin 2 → ℚ :=
  fun i => if A.det < 0 ∧ i = 1 then -1 else 1

/-- The rotation block `T[:2, :2]` chosen by `_umeyama` before scaling: the
rank-1 branch uses `U @ V` when `det(U) * det(V) > 0` and otherwise
`U @ diag(d with last entry -1) @ V`; the full-rank branch uses
`U @ diag(d) @ V`. -/
def rotationOf (A : Mat2) (svd : SVD2 A) : Mat2 :=
  if matrixRank2 A = 1 then
    if 0 < svd.U.det * svd.Vh.det then
      svd.U * svd.Vh
    else
      svd.U * Matrix.diagonal (fun i => if i = 1 then -1 else signVec A i) *
        svd.Vh
  else
    svd.U * Matrix.diagonal (signVec A) * svd.Vh

/-- Eq. (41)/(42): `scale = 1.0 / src_demean.var(axis=0).sum() * (S @ d)`. -/
def scaleOf (src : Pts5) (A : Mat2) (svd : SVD2 A) : ℚ :=
  1 / srcVar src * ∑ i, svd.S i * signVec A i

/-- `_umeyama(src, dst, estimate_scale=True)` for a 5-point 2-D
correspondence.  The all-NaN sentinel `np.nan * T` of the rank-0 branch is
modelled as `none`.  The translation column is
`dst_mean - scale * (R @ src_mean)` (computed before `T[:2, :2] *= scale`,
as in the source), and the returned matrix has `scale * R` as its upper-left
block and `[0, 0, 1]` as its last row. -/
def umeyama (src dst : Pts5) (svd : SVD2 (covA src dst)) : Option Mat3 :=
  if matrixRank2 (covA src dst) = 0 then
    none
  else
    let R : Mat2 := rotationOf (covA src dst) svd
    let scale : ℚ := scaleOf src (covA src dst) svd
    let t : Pt := fun j => ptsMean dst j - scale * ∑ k, R j k * ptsMean src k
    some (Matrix.of fun i j =>
      if hi : (i : ℕ) < 2 then
        if hj : (j : ℕ) < 2 then scale * R ⟨i, hi⟩ ⟨j, hj⟩
        else t ⟨i, hi⟩
      else
        if (j : ℕ) < 2 then 0 else 1)

/-- `SimilarityTransform.estimate`: sets `self.params = _umeyama(src, dst,
estimate_scale=True)` and returns `not np.any(np.isnan(self.params))` — that
is, `False` together with the invalid sentinel params exactly when
`_umeyama` degenerated. -/
def SimilarityTransform.estimate (src dst : Pts5)
    (svd : SVD2 (covA src dst)) : Bool × Option Mat3 :=
  ((umeyama src dst svd).isSome, umeyama src dst svd)

/-- The upper-left 2×2 linear block of a homogeneous 3×3 transform. -/
def linearBlock (T : Mat3) : Mat2 :=
  Matrix.of fun i j => T i.castSucc j.castSucc

/-- The SVD of the zero covariance matrix produced by five identical source
points and five identical destination points at the origin. -/
def zeroSVD : SVD2 (covA (fun _ _ => 0) (fun _ _ => 0)) where
  U := 1
  S := 0
  Vh := 1
  factor := by
    ext j k
    simp [covA, demean, ptsMean, Matrix.diagonal_zero]
  orthoU := by simp
  orthoV := by simp
  nonneg := fun _ => le_refl 0
  descending := le_refl 0

/-- A non-degenerate 5-point set: the four unit cross points and the
origin. -/
def crossPts : Pts5 :=
  ![![1, 0], ![-1, 0], ![0, 1], ![0, -1], ![0, 0]]

/-- The SVD of the covariance of the cross points with themselves
(`A = (2/5) · I`). -/
def crossSVD : SVD2 (covA crossPts crossPts) where
  U := 1
  S := fun _ => 2 / 5
  Vh := 1
  factor := by
    ext j k
    fin_cases j <;> fin_cases k <;>
      norm_num [covA, demean, ptsMean, crossPts, Fin.sum_univ_five,
        Matrix.diagonal_apply]
  orthoU := by simp
  orthoV := by simp
  nonneg := fun _ => by norm_num
  descending := le_refl _

/-! ### Lemmas about `npArgmax` -/

lemma npArgmaxGo_lt (xs : List ℚ) : ∀ (cur : ℚ) (i best : Nat), best < i →
    npArgmaxGo xs cur i best < i + xs.length := by
  induction xs with
  | nil =>
    intro cur i best h
    simpa [npArgmaxGo] using h
  | cons x xs ih =>
    intro cur i best h
    by_cases hc : cur < x
    · have h1 := ih x (i + 1) i (Nat.lt_succ_self i)
      simp only [npArgmaxGo, if_pos hc, List.length_cons]
      omega
    · have h1 := ih cur (i + 1) best (Nat.lt_succ_of_lt h)
      simp only [npArgmaxGo, if_neg hc, List.length_cons]
      omega

lemma npArgmaxGo_spec (xs : List ℚ) : ∀ (cur : ℚ) (i best : Nat) (l : List ℚ),
    l.drop i = xs → i ≤ l.length → best < i → l.getD best 0 = cur →
    (∀ k, k < i → l.getD k 0 ≤ cur) →
    npArgmaxGo xs cur i best < l.length ∧
      ∀ k, k < l.length → l.getD k 0 ≤ l.getD (npArgmaxGo xs cur i best) 0 := by
  induction xs with
  | nil =>
    intro cur i best l hdrop hile hbi hval hmax
    have hlen : l.length ≤ i := List.drop_eq_nil_iff.mp hdrop
    refine ⟨?_, ?_⟩
    · simpa only [npArgmaxGo] using lt_of_lt_of_le hbi (le_antisymm hile hlen).le
    · intro k hk
      simp only [npArgmaxGo]
      rw [hval]
      exact hmax k (lt_of_lt_of_le hk hlen)
  | cons x xs ih =>
    intro cur i best l hdrop hile hbi hval hmax
    have hil : i < l.length := by
      by_contra hnot
      rw [List.drop_eq_nil_of_le (Nat.le_of_not_lt hnot)] at hdrop
      exact List.cons_ne_nil x xs hdrop.symm
    rw [List.drop_eq_getElem_cons hil] at hdrop
    simp only [List.cons.injEq] at hdrop
    obtain ⟨hx, hxs⟩ := hdrop
    have hgx : l.getD i 0 = x := by rw [List.getD_eq_getElem l 0 hil, hx]
    by_cases hc : cur < x
    · have hres := ih x (i + 1) i l hxs hil (Nat.lt_succ_self i) hgx ?_
      · simpa only [npArgmaxGo, if_pos hc] using hres
      · intro k hk
        rcases Nat.lt_succ_iff_lt_or_eq.mp hk with hk' | rfl
        · exact (hmax k hk').trans (le_of_lt hc)
        · exact le_of_eq hgx
    · have hres := ih cur (i + 1) best l hxs hil (Nat.lt_succ_of_lt hbi) hval ?_
      · simpa only [npArgmaxGo, if_neg hc] using hres
      · intro k hk
        rcases Nat.lt_succ_iff_lt_or_eq.mp hk with hk' | rfl
        · exact hmax k hk'
        · rw [hgx]; exact le_of_not_lt hc

lemma npArgmax_spec (l : List ℚ) (h : l ≠ []) :
    npArgmax l < l.length ∧
      ∀ k, k < l.length → l.getD k 0 ≤ l.getD (npArgmax l) 0 := by
  match l, h with
  | x :: xs, _ =>
    have hres := npArgmaxGo_spec xs x 1 0 (x :: xs) (by simp) (by simp)
      Nat.zero_lt_one (by simp) ?_
    · simpa only [npArgmax] using hres
    · intro k hk
      interval_cases k
      simp

/-- `List.maximum_eq_coe_iff` restated with `some` in place of the `WithBot`
coercion. -/
lemma maximum_eq_some_iff {l : List ℚ} {b : ℚ} :
    l.maximum = some b ↔ b ∈ l ∧ ∀ a ∈ l, a ≤ b :=
  List.maximum_eq_coe_iff

/-- The value the matcher reads at `np.argmax` is the maximum of the list. -/
lemma getD_npArgmax (l : List ℚ) (b : ℚ) (hb : l.maximum = some b) :
    l.getD (npArgmax l) 0 = b := by
  rw [maximum_eq_some_iff] at hb
  obtain ⟨hmem, hle⟩ := hb
  have hne : l ≠ [] := List.ne_nil_of_mem hmem
  obtain ⟨hlt, hmax⟩ := npArgmax_spec l hne
  have h1 : l.getD (npArgmax l) 0 ∈ l := by
    rw [List.getD_eq_getElem l 0 hlt]
    exact List.mem_iff_getElem.mpr ⟨npArgmax l, hlt, rfl⟩
  obtain ⟨k, hk, hkb⟩ := List.mem_iff_getElem.mp hmem
  have h3 := hmax k hk
  rw [List.getD_eq_getElem l 0 hk, hkb] at h3
  exact le_antisymm (hle _ h1) h3

/-! ### Lemmas about `sorted(similarities)[-2]` -/

lemma perm_maximum {l₁ l₂ : List ℚ} (h : l₁ ~ l₂) : l₁.maximum = l₂.maximum := by
  rcases h2 : l₂.maximum with _ | m
  · have h3 : l₂ = [] := List.maximum_eq_none.mp h2
    subst h3
    rw [List.maximum_eq_none.mpr h.eq_nil]
  · rw [maximum_eq_some_iff] at h2 ⊢
    exact ⟨h.mem_iff.mpr h2.1, fun a ha => h2.2 a (h.mem_iff.mp ha)⟩

/-- For a sorted (ascending) non-empty list the maximum is the last element. -/
lemma maximum_of_sorted {l : List ℚ} (h : l ≠ []) (hs : List.Sorted (· ≤ ·) l) :
    l.maximum = some (l.getLast h) := by
  rw [maximum_eq_some_iff]
  refine ⟨List.getLast_mem h, fun a ha => ?_⟩
  have hsplit : l.dropLast ++ [l.getLast h] = l := List.dropLast_append_getLast h
  rw [← hsplit] at ha hs
  rcases List.mem_append.mp ha with h1 | h1
  · have hpair : List.Pairwise (· ≤ ·) (l.dropLast ++ [l.getLast h]) := hs
    exact (List.pairwise_append.mp hpair).2.2 a h1 _ (List.mem_singleton_self _)
  · rw [List.mem_singleton.mp h1]

/-- `sorted(similarities)[-2]` is the largest value after removing one
occurrence of the maximum. -/
lemma erase_max_maximum (l : List ℚ) (b : ℚ) (h2 : 2 ≤ l.length)
    (hb : l.maximum = some b) :
    (l.erase b).maximum = some (secondMaxSimilarity l) := by
  have hperm : pySorted l ~ l := List.perm_insertionSort _ l
  have hsorted : List.Sorted (· ≤ ·) (pySorted l) := List.sorted_insertionSort _ l
  have hslen : (pySorted l).length = l.length := hperm.length_eq
  have hsne : pySorted l ≠ [] := by
    intro h0
    rw [h0] at hslen
    simp only [List.length_nil] at hslen
    omega
  have hlast : (pySorted l).getLast hsne = b := by
    have hm := maximum_of_sorted hsne hsorted
    rw [perm_maximum hperm, hb] at hm
    exact Option.some.inj hm.symm
  have hdperm : l.erase b ~ (pySorted l).dropLast := by
    refine ((hperm.symm).erase b).trans ?_
    by_cases hmem : b ∈ (pySorted l).dropLast
    · have hsplit : (pySorted l).dropLast ++ [b] = pySorted l := by
        rw [← hlast]
        exact List.dropLast_append_getLast hsne
      calc (pySorted l).erase b
          = ((pySorted l).dropLast ++ [b]).erase b := by rw [hsplit]
        _ = (pySorted l).dropLast.erase b ++ [b] := List.erase_append_left _ hmem
        _ ~ b :: (pySorted l).dropLast.erase b := List.perm_append_singleton _ _
        _ ~ (pySorted l).dropLast := (List.perm_cons_erase hmem).symm
    · have hsplit : (pySorted l).dropLast ++ [b] = pySorted l := by
        rw [← hlast]
        exact List.dropLast_append_getLast hsne
      have heq : (pySorted l).erase b = (pySorted l).dropLast := by
        rw [← hsplit, List.erase_append_right _ hmem]
        simp
      rw [heq]
  have hdne : (pySorted l).dropLast ≠ [] := by
    intro h0
    have hdl : (pySorted l).dropLast.length = (pySorted l).length - 1 :=
      List.length_dropLast _
    rw [h0] at hdl
    simp only [List.length_nil] at hdl
    omega
  have hdsorted : List.Sorted (· ≤ ·) (pySorted l).dropLast :=
    List.Pairwise.sublist (List.dropLast_sublist _) hsorted
  have hdmax := maximum_of_sorted hdne hdsorted
  have hgl : (pySorted l).dropLast.getLast hdne = secondMaxSimilarity l := by
    rw [secondMaxSimilarity, if_pos h2]
    have hidx : l.length - 2 < (pySorted l).dropLast.length := by
      rw [List.length_dropLast, hslen]
      omega
    rw [List.getLast_eq_getElem, List.getElem_dropLast]
    have hidx2 : l.length - 2 < (pySorted l).length := by
      rw [hslen]; omega
    rw [List.getD_eq_getElem _ 0 hidx2]
    congr 1
    rw [List.length_dropLast, hslen]
    omega
  rw [perm_maximum hdperm, hdmax, hgl]

/-- `Recognizer.compare`'s decision, rewritten to expose the maximum value `b`
and the returned entry. -/
lemma compareSims_eq (sims : List ℚ) (dict : List GalleryEntry) (b : ℚ)
    (hb : sims.maximum = some b) (hlen : dict.length = sims.length) :
    compareSims sims dict =
      if THRESHOLD < b ∧ MIN_SIMILARITY_DIFFERENCE < b - secondMaxSimilarity sims
      then Except.ok (.matched (dict.getD (npArgmax sims) default).userId
                               (dict.getD (npArgmax sims) default).username)
      else Except.ok .unknown := by
  have hne : sims ≠ [] := by
    intro h0
    rw [h0] at hb
    simp [List.maximum_nil] at hb
  have hempty : sims.isEmpty = false := by
    simpa [List.isEmpty_iff] using hne
  have hval : sims.getD (npArgmax sims) 0 = b := getD_npArgmax sims b hb
  have hlt : npArgmax sims < dict.length := by
    rw [hlen]
    exact (npArgmax_spec sims hne).1
  have hget : dict.get? (npArgmax sims) = some (dict.getD (npArgmax sims) default) := by
    rw [List.get?_eq_getElem?, List.getElem?_eq_getElem hlt,
      List.getD_eq_getElem dict default hlt]
  simp only [compareSims, hempty, Bool.false_eq_true, if_false, hval, hget]

/-- The code's `second_max_similarity` agrees with the spec's "largest after
removing one occurrence of the maximum" whenever the gallery has at least two
entries. -/
lemma secondMax_eq_specSecondBest (sims : List ℚ) (b : ℚ) (h2 : 2 ≤ sims.length)
    (hb : sims.maximum = some b) :
    specSecondBest sims b = secondMaxSimilarity sims := by
  rw [specSecondBest, erase_max_maximum sims b h2 hb]
  rfl

/-! ## Claim theorems for the matcher -/

/-- **C2** — the claim says an empty gallery yields the Unknown result with no
identity and "is not an error".  The code instead reaches
`np.argmax(similarities)` with `similarities == []`, which raises
`ValueError: attempt to get argmax of an empty sequence`: the claim is right
about the intent (spec §4.2, §7, §8 all say empty gallery is not an error) and
the code is wrong.  This theorem evaluates the embedded code on the failing
input (empty gallery, arbitrary probe and similarity function). -/
theorem compare_empty_gallery_raises {α : Type} (sim : α → α → ℚ) (probe : α) :
    compare sim probe [] [] =
      Except.error "ValueError: attempt to get argmax of an empty sequence" := rfl

/-- **C4** — for a non-empty gallery the matcher returns the best-scoring
entry's identity and name iff the best similarity exceeds 0.45 and the gap to
the second-best (the spec's "largest after removing one occurrence of the
maximum", `-1` for sub-2 galleries) exceeds 0.10; otherwise Unknown.  In
particular similarities `[0.50, 0.48]` yield Unknown. -/
theorem compare_accepts_iff_threshold_and_margin
    (sims : List ℚ) (dict : List GalleryEntry) (b : ℚ)
    (hne : sims ≠ []) (hlen : dict.length = sims.length)
    (hb : sims.maximum = some b) :
    (compareSims sims dict =
        Except.ok (.matched (dict.getD (npArgmax sims) default).userId
                            (dict.getD (npArgmax sims) default).username) ↔
      (45 / 100 : ℚ) < b ∧ (1 / 10 : ℚ) < b - specSecondBest sims b) ∧
    (¬ ((45 / 100 : ℚ) < b ∧ (1 / 10 : ℚ) < b - specSecondBest sims b) →
      compareSims sims dict = Except.ok .unknown) ∧
    compareSims [1/2, 12/25] [⟨1, "a"⟩, ⟨2, "b"⟩] = Except.ok .unknown := by
  have hcond : (THRESHOLD < b ∧
      MIN_SIMILARITY_DIFFERENCE < b - secondMaxSimilarity sims) ↔
      ((45 / 100 : ℚ) < b ∧ (1 / 10 : ℚ) < b - specSecondBest sims b) := by
    rcases le_or_lt 2 sims.length with h2 | h1
    · rw [secondMax_eq_specSecondBest sims b h2 hb, THRESHOLD,
        MIN_SIMILARITY_DIFFERENCE]
    · obtain ⟨x, rfl⟩ : ∃ x, sims = [x] := by
        rcases sims with _ | ⟨x, _ | ⟨y, t⟩⟩
        · exact absurd rfl hne
        · exact ⟨x, rfl⟩
        · simp only [List.length_cons] at h1; omega
      have hbx : b = x := by
        have hm := (maximum_eq_some_iff.mp hb).1
        simpa using hm
      subst hbx
      have hsec : secondMaxSimilarity [b] = 0 := by
        rw [secondMaxSimilarity, if_neg (by simp)]
      have hspec : specSecondBest [b] b = -1 := by
        rw [specSecondBest, List.erase_cons_head]
        rfl
      rw [hsec, hspec, THRESHOLD, MIN_SIMILARITY_DIFFERENCE]
      constructor
      · rintro ⟨ha, hm⟩
        exact ⟨ha, by linarith⟩
      · rintro ⟨ha, hm⟩
        exact ⟨ha, by linarith⟩
  rw [compareSims_eq sims dict b hb hlen]
  refine ⟨?_, ?_, ?_⟩
  · by_cases hc : THRESHOLD < b ∧
        MIN_SIMILARITY_DIFFERENCE < b - secondMaxSimilarity sims
    · rw [if_pos hc]
      exact iff_of_true rfl (hcond.mp hc)
    · rw [if_neg hc]
      constructor
      · intro habs
        exact absurd habs (by simp)
      · intro hs
        exact absurd (hcond.mpr hs) hc
  · intro hs
    rw [if_neg (fun hc => hs (hcond.mp hc))]
  · norm_num [compareSims, secondMaxSimilarity, pySorted, List.insertionSort,
      List.orderedInsert, npArgmax, npArgmaxGo, THRESHOLD,
      MIN_SIMILARITY_DIFFERENCE]

/-- Witness for C4: similarities `[0.80, 0.20]` are accepted with the identity
at index 0 (spec §8 "Margin acceptance"). -/
theorem compare_accepts_iff_threshold_and_margin_witness :
    compareSims [4/5, 1/5] [⟨1, "a"⟩, ⟨2, "b"⟩] = Except.ok (.matched 1 "a") := by
  have hmax : ([4/5, 1/5] : List ℚ).maximum = some (4/5) := by
    rw [maximum_eq_some_iff]
    refine ⟨by norm_num, ?_⟩
    intro a ha
    rcases List.mem_cons.mp ha with rfl | ha'
    · exact le_refl _
    · rw [List.mem_singleton.mp ha']
      norm_num
  have hcond : (45 / 100 : ℚ) < 4/5 ∧
      (1 / 10 : ℚ) < 4/5 - specSecondBest [4/5, 1/5] (4/5) := by
    have her : ([4/5, 1/5] : List ℚ).erase (4/5) = [1/5] := List.erase_cons_head ..
    have hm1 : ([1/5] : List ℚ).maximum = some (1/5) := by
      rw [maximum_eq_some_iff]
      simp
    rw [specSecondBest, her, hm1]
    norm_num
  have h := (compare_accepts_iff_threshold_and_margin [4/5, 1/5]
    [⟨1, "a"⟩, ⟨2, "b"⟩] (4/5) (by simp) rfl hmax).1.mpr hcond
  have hidx : npArgmax [(4:ℚ)/5, 1/5] = 0 := by
    norm_num [npArgmax, npArgmaxGo]
  rw [hidx] at h
  simpa using h

/-- **C5** — when the maximum similarity occurs at least twice,
`sorted(similarities)[-2]` equals the maximum, the margin is 0, and the
matcher returns Unknown no matter how large the maximum is. -/
theorem tie_at_maximum_is_rejected (sims : List ℚ) (dict : List GalleryEntry)
    (b : ℚ) (h2 : 2 ≤ sims.length) (hb : sims.maximum = some b)
    (hcount : 2 ≤ sims.count b) :
    secondMaxSimilarity sims = b ∧ compareSims sims dict = Except.ok .unknown := by
  have hbmem : b ∈ sims := (maximum_eq_some_iff.mp hb).1
  have hbound := (maximum_eq_some_iff.mp hb).2
  have hcnt : 0 < (sims.erase b).count b := by
    rw [List.count_erase_self]
    omega
  have hmem' : b ∈ sims.erase b := List.count_pos_iff.mp hcnt
  have hmax' : (sims.erase b).maximum = some b := by
    rw [maximum_eq_some_iff]
    exact ⟨hmem', fun a ha => hbound a (List.erase_subset _ _ ha)⟩
  have hsec : secondMaxSimilarity sims = b := by
    have h := erase_max_maximum sims b h2 hb
    rw [hmax'] at h
    exact (Option.some.inj h).symm
  refine ⟨hsec, ?_⟩
  have hne : sims ≠ [] := List.ne_nil_of_mem hbmem
  have hempty : sims.isEmpty = false := by
    simpa [List.isEmpty_iff] using hne
  have hval : sims.getD (npArgmax sims) 0 = b := getD_npArgmax sims b hb
  simp only [compareSims, hempty, Bool.false_eq_true, if_false, hval, hsec]
  rw [if_neg]
  rintro ⟨-, habs⟩
  rw [sub_self] at habs
  exact absurd habs (by norm_num [MIN_SIMILARITY_DIFFERENCE])

/-- Witness for C5: similarities `[0.9, 0.9]` tie far above the threshold and
are still rejected. -/
theorem tie_at_maximum_is_rejected_witness :
    secondMaxSimilarity [9/10, 9/10] = 9/10 ∧
      compareSims [9/10, 9/10] [⟨1, "a"⟩, ⟨2, "b"⟩] = Except.ok .unknown := by
  apply tie_at_maximum_is_rejected
  · simp
  · rw [maximum_eq_some_iff]
    simp
  · rw [List.count_cons_self, List.count_cons_self, List.count_nil]

/-- **C6 counterexample** — the claim says `second_best = -1` for sub-2
galleries; the code initialises `second_max_similarity = 0` and never
reassigns it when `len(similarities) < 2`, so for the one-entry similarity
list `[0.9]` the value used is `0`, not `-1`. -/
theorem secondMax_singleton_not_minus_one :
    secondMaxSimilarity [9/10] = 0 ∧ ¬ secondMaxSimilarity [9/10] = -1 := by
  have h : secondMaxSimilarity [9/10] = 0 := by
    rw [secondMaxSimilarity, if_neg (by simp)]
  refine ⟨h, ?_⟩
  rw [h]
  norm_num

/-- **C6 (amended)** — when the gallery has fewer than 2 entries the
second-best similarity used by the matcher is `0` (not `-1`); since the
threshold 0.45 exceeds the minimum margin 0.10, the margin condition still
degenerates to a threshold-only test. -/
theorem secondMax_small_gallery_threshold_only
    (sims : List ℚ) (x : ℚ) (e : GalleryEntry) (hlen : sims.length < 2) :
    secondMaxSimilarity sims = 0 ∧
    (compareSims [x] [e] = Except.ok (.matched e.userId e.username) ↔
      (45 / 100 : ℚ) < x) ∧
    ((45 / 100 : ℚ) < x ↔ ((45 / 100 : ℚ) < x ∧ (1 / 10 : ℚ) < x - 0)) := by
  refine ⟨?_, ?_, ?_⟩
  · rw [secondMaxSimilarity, if_neg (by omega)]
  · have hb : ([x] : List ℚ).maximum = some x := by
      rw [maximum_eq_some_iff]
      simp
    rw [compareSims_eq [x] [e] x hb rfl]
    have hsec : secondMaxSimilarity [x] = 0 := by
      rw [secondMaxSimilarity, if_neg (by simp)]
    have hidx : npArgmax [x] = 0 := rfl
    rw [hsec, hidx, List.getD_cons_zero]
    by_cases hc : (45 / 100 : ℚ) < x
    · rw [if_pos ⟨by rw [THRESHOLD]; exact hc,
        by rw [MIN_SIMILARITY_DIFFERENCE]; linarith⟩]
      exact iff_of_true rfl hc
    · rw [if_neg]
      · constructor
        · intro habs
          exact absurd habs (by simp)
        · intro habs
          exact absurd habs hc
      · rintro ⟨habs, -⟩
        rw [THRESHOLD] at habs
        exact hc habs
  · constructor
    · intro h
      exact ⟨h, by linarith⟩
    · rintro ⟨h, -⟩
      exact h

/-- Witness for C6's amended theorem at the empty similarity list and the
probe value `0.5` against a one-entry gallery. -/
theorem secondMax_small_gallery_threshold_only_witness :
    secondMaxSimilarity [] = 0 ∧
    (compareSims [1/2] [⟨7, "w"⟩] = Except.ok (.matched 7 "w") ↔
      (45 / 100 : ℚ) < 1/2) ∧
    ((45 / 100 : ℚ) < 1/2 ↔ ((45 / 100 : ℚ) < 1/2 ∧ (1 / 10 : ℚ) < 1/2 - 0)) :=
  secondMax_small_gallery_threshold_only [] (1/2) ⟨7, "w"⟩ (by simp)

/-! ## Lemmas about the decision loop -/

lemma stepFrame_frameCount (c : Nat → String) (s : LoopState) :
    (stepFrame c s).frameCount = s.frameCount + 1 := by
  rw [stepFrame]
  split <;> rfl

lemma stepFrame_of_tracking (c : Nat → String) (s : LoopState)
    (h : 35 ≤ s.frameCount + 1) :
    stepFrame c s = ⟨s.frameCount + 1, some (nameOf (c (s.frameCount + 1))),
      c (s.frameCount + 1)⟩ := by
  rw [stepFrame, if_pos h]

/-- Before frame 40 neither break condition can fire. -/
lemma breakCheck_early (c : Nat → String) (s : LoopState)
    (h : s.frameCount + 1 < 40) :
    breakCheck (stepFrame c s) = none := by
  have hfc := stepFrame_frameCount c s
  rw [breakCheck, if_neg, if_neg]
  · rintro ⟨h50, -⟩
    rw [hfc] at h50
    omega
  · rintro ⟨h40, -⟩
    rw [hfc] at h40
    omega

/-- The loop reaches frame 40 no matter what candidates frames 35–39
produced, and if frame 40's candidate is recognised it breaks there in
`accepted`, carrying frame 40's candidate. -/
lemma run_accepts (c : Nat → String) (h40 : nameOf (c 40) ≠ "Unknown") :
    ∀ (d : Nat) (s : LoopState) (n : Nat), s.frameCount + d = 40 → 1 ≤ d →
      d ≤ n →
      run c n s = some (.accepted, ⟨40, some (nameOf (c 40)), c 40⟩) := by
  intro d
  induction d with
  | zero =>
    intro s n h0 h1 _
    omega
  | succ k ih =>
    intro s n hfc _ hdn
    obtain ⟨m, rfl⟩ : ∃ m, n = m + 1 := ⟨n - 1, by omega⟩
    by_cases hk : k = 0
    · subst hk
      have h39 : s.frameCount = 39 := by omega
      have hstep : stepFrame c s = ⟨40, some (nameOf (c 40)), c 40⟩ := by
        rw [stepFrame_of_tracking c s (by omega), h39]
      have hbc : breakCheck (⟨40, some (nameOf (c 40)), c 40⟩ : LoopState) =
          some .accepted := by
        rw [breakCheck, if_pos]
        exact ⟨rfl, by simpa using h40⟩
      simp only [run, hstep, hbc]
    · have hbc : breakCheck (stepFrame c s) = none :=
        breakCheck_early c s (by omega)
      simp only [run, hbc]
      exact ih (stepFrame c s) m
        (by rw [stepFrame_frameCount]; omega) (by omega) (by omega)

/-- If every tracked frame through frame 50 yields Unknown, the loop reaches
frame 50 and breaks there in `timeoutFailed`. -/
lemma run_timeout (c : Nat → String)
    (hU : ∀ i, 35 ≤ i → i ≤ 50 → nameOf (c i) = "Unknown") :
    ∀ (d : Nat) (s : LoopState) (n : Nat), s.frameCount + d = 50 → 1 ≤ d →
      d ≤ n →
      run c n s = some (.timeoutFailed, ⟨50, some "Unknown", c 50⟩) := by
  intro d
  induction d with
  | zero =>
    intro s n h0 h1 _
    omega
  | succ k ih =>
    intro s n hfc _ hdn
    obtain ⟨m, rfl⟩ : ∃ m, n = m + 1 := ⟨n - 1, by omega⟩
    by_cases hk : k = 0
    · subst hk
      have h49 : s.frameCount = 49 := by omega
      have hname : nameOf (c 50) = "Unknown" := hU 50 (by omega) (le_refl _)
      have hstep : stepFrame c s = ⟨50, some "Unknown", c 50⟩ := by
        rw [stepFrame_of_tracking c s (by omega), h49, hname]
      have hbc : breakCheck (⟨50, some "Unknown", c 50⟩ : LoopState) =
          some .timeoutFailed := by
        rw [breakCheck, if_neg, if_pos]
        · exact ⟨le_refl _, rfl⟩
        · rintro ⟨h40, -⟩
          simp at h40
      simp only [run, hstep, hbc]
    · have hbc : breakCheck (stepFrame c s) = none := by
        by_cases h40 : s.frameCount + 1 = 40
        · have hstep : stepFrame c s =
              ⟨40, some (nameOf (c 40)), c 40⟩ := by
            rw [stepFrame_of_tracking c s (by omega), h40]
          have hname : nameOf (c 40) = "Unknown" := hU 40 (by omega) (by omega)
          rw [hstep, breakCheck, if_neg, if_neg]
          · rintro ⟨h50, -⟩
            simp at h50
          · rintro ⟨-, hne⟩
            rw [hname] at hne
            exact hne rfl
        · have hfc' := stepFrame_frameCount c s
          rw [breakCheck, if_neg, if_neg]
          · rintro ⟨h50, -⟩
            rw [hfc'] at h50
            omega
          · rintro ⟨h40', -⟩
            rw [hfc'] at h40'
            omega
      simp only [run, hbc]
      exact ih (stepFrame c s) m
        (by rw [stepFrame_frameCount]; omega) (by omega) (by omega)

/-! ## Claim theorems for the decision loop and the per-frame handler -/

/-- **C1** — the claim says that for every stream of per-frame candidates the
loop started at `frame_count = 0` terminates at or before the timeout frame
(frame 50).  It is false: with candidates Unknown through frame 40 and a
recognised identity from frame 41 on, the accept check (`frame_count == 40`)
has already failed and the timeout check (`frame_count >= 50 and
recognized_name == "Unknown"`) can never fire again, so the loop never
terminates — with any amount of fuel, from any state. -/
theorem loop_never_terminates_on_late_recognition :
    ∀ (fuel : Nat) (s : LoopState), run lateRecognition fuel s = none := by
  intro fuel
  induction fuel with
  | zero =>
    intro s
    rfl
  | succ n ih =>
    intro s
    have hbc : breakCheck (stepFrame lateRecognition s) = none := by
      rcases Nat.lt_or_ge (s.frameCount + 1) 40 with h40 | h40
      · exact breakCheck_early lateRecognition s h40
      · have hstep := stepFrame_of_tracking lateRecognition s (by omega)
        rcases Nat.lt_or_ge (s.frameCount + 1) 41 with h41 | h41
        · -- frame 40: candidate is Unknown
          have h40' : s.frameCount + 1 = 40 := by omega
          have hc : lateRecognition 40 = "Unknown" := by
            rw [lateRecognition]
            norm_num
          rw [hstep, h40', breakCheck, if_neg, if_neg]
          · rintro ⟨h50, -⟩
            simp at h50
          · rintro ⟨-, hne⟩
            rw [hc] at hne
            exact hne rfl
        · -- frame ≥ 41: candidate is recognised, frame ≠ 40
          have hc : lateRecognition (s.frameCount + 1) = "user@example.com" := by
            rw [lateRecognition, if_neg (by omega)]
          rw [hstep, breakCheck, if_neg, if_neg]
          · rintro ⟨-, heq⟩
            rw [hc] at heq
            have : nameOf "user@example.com" = "user" := rfl
            rw [this] at heq
            simp at heq
          · rintro ⟨h40', -⟩
            simp at h40'
            omega
    simp only [run, hbc]
    exact ih _

/-- **C9** — during tracking each processed frame's candidate overwrites the
previous one; the theorem holds for *every* stream, whatever frames 35–39
produced, and the accepted outcome carries exactly frame 40's candidate:
if frame 40's candidate is non-Unknown, the loop terminates (once) in
`accepted` at frame 40, using frame 40's candidate. -/
theorem accept_at_frame_40_uses_frame_40_candidate (c : Nat → String)
    (n : Nat) (h40 : nameOf (c 40) ≠ "Unknown") (hn : 40 ≤ n) :
    runMain c n = some (.accepted, ⟨40, some (nameOf (c 40)), c 40⟩) :=
  run_accepts c h40 40 initState n rfl (by omega) hn

/-- Witness for C9: a stream whose candidate at every frame is
`alice@corp.vn` is accepted at frame 40 with that candidate. -/
theorem accept_at_frame_40_witness :
    runMain (fun _ => "alice@corp.vn") 40 =
      some (.accepted, ⟨40, some "alice", "alice@corp.vn"⟩) :=
  accept_at_frame_40_uses_frame_40_candidate (fun _ => "alice@corp.vn") 40
    (by decide) (le_refl _)

/-- **C10** — if every tracked frame through frame 50 yields Unknown, the
loop terminates in `timeoutFailed` at frame 50 and the attendance sink
(`post_attendance`) is not called. -/
theorem timeout_at_frame_50_no_sink_call (c : Nat → String)
    (hU : ∀ i, 35 ≤ i → i ≤ 50 → nameOf (c i) = "Unknown") :
    runMain c 50 = some (.timeoutFailed, ⟨50, some "Unknown", c 50⟩) ∧
      sinkCalled (.timeoutFailed, ⟨50, some "Unknown", c 50⟩) = false := by
  refine ⟨run_timeout c hU 50 initState 50 rfl (by omega) (le_refl _), ?_⟩
  rw [sinkCalled]
  simp

/-- Witness for C10: the all-Unknown stream times out at frame 50 with no
sink call. -/
theorem timeout_at_frame_50_witness :
    runMain (fun _ => "Unknown") 50 =
      some (.timeoutFailed, ⟨50, some "Unknown", "Unknown"⟩) ∧
      sinkCalled (.timeoutFailed, ⟨50, some "Unknown", "Unknown"⟩) = false :=
  timeout_at_frame_50_no_sink_call (fun _ => "Unknown")
    (fun _ _ _ => rfl)

/-- **C3** — the claim says a frame with an empty detector result degrades to
an Unknown candidate and no exception escapes the per-frame processing.  In
the code, `name` defaults to `"Unknown"` but `x, y, w, h` are assigned only
inside `if faces:`, so `return name, x, y, w, h` raises `UnboundLocalError`
when the face list is empty — the exception escapes and aborts the loop.
This theorem evaluates the embedded handler on the failing input (empty face
list, any pipeline). -/
theorem empty_faces_raise_unbound_local
    (pipeline : Face → Except String MatchResult) :
    handle_recognition_detection pipeline [] =
      Except.error
        "UnboundLocalError: local variable x referenced before assignment" :=
  rfl

/-! ## Lemmas about `_umeyama` -/

lemma demean_const (p : Pt) (i : Fin 5) (k : Fin 2) :
    demean (fun _ => p) i k = 0 := by
  rw [demean, ptsMean, Finset.sum_const, Finset.card_univ, Fintype.card_fin,
    nsmul_eq_mul]
  push_cast
  ring

lemma covA_const_src (p : Pt) (dst : Pts5) : covA (fun _ => p) dst = 0 := by
  ext j k
  simp [covA, demean_const]

lemma covA_const_dst (src : Pts5) (p : Pt) : covA src (fun _ => p) = 0 := by
  ext j k
  simp [covA, demean_const]

/-- Orthogonality survives the three-factor sandwich `U · D · Vh`. -/
lemma sandwich_orthogonal (U D Vh : Mat2) (hU : U * U.transpose = 1)
    (hD : D * D.transpose = 1) (hV : Vh * Vh.transpose = 1) :
    (U * D * Vh) * (U * D * Vh).transpose = 1 := by
  rw [Matrix.transpose_mul, Matrix.transpose_mul]
  calc U * D * Vh * (Vh.transpose * (D.transpose * U.transpose))
      = U * (D * ((Vh * Vh.transpose) * (D.transpose * U.transpose))) := by
        noncomm_ring
    _ = U * (D * (D.transpose * U.transpose)) := by rw [hV, one_mul]
    _ = U * ((D * D.transpose) * U.transpose) := by noncomm_ring
    _ = U * U.transpose := by rw [hD, one_mul]
    _ = 1 := hU

lemma diagonal_sign_orthogonal (d : Fin 2 → ℚ)
    (hd : ∀ i, d i = 1 ∨ d i = -1) :
    Matrix.diagonal d * (Matrix.diagonal d).transpose = 1 := by
  rw [Matrix.diagonal_transpose, Matrix.diagonal_mul_diagonal]
  have hsq : (fun i => d i * d i) = fun _ => (1 : ℚ) := by
    funext i
    rcases hd i with h | h <;> rw [h] <;> norm_num
  rw [hsq]
  exact Matrix.diagonal_one

lemma signVec_cases (A : Mat2) (i : Fin 2) :
    signVec A i = 1 ∨ signVec A i = -1 := by
  rw [signVec]
  split
  · right; rfl
  · left; rfl

lemma det_eq_one_or_neg_one_of_orth (M : Mat2)
    (h : M * M.transpose = 1) : M.det = 1 ∨ M.det = -1 := by
  have h1 : M.det * M.det = 1 := by
    have h2 := congrArg Matrix.det h
    rwa [Matrix.det_mul, Matrix.det_transpose, Matrix.det_one] at h2
  have h3 : (M.det - 1) * (M.det + 1) = 0 := by linear_combination h1
  rcases mul_eq_zero.mp h3 with h4 | h4
  · left; linarith
  · right; linarith

/-- The composed block `R` is orthogonal in every branch. -/
lemma rotationOf_orthogonal (A : Mat2) (svd : SVD2 A) :
    rotationOf A svd * (rotationOf A svd).transpose = 1 := by
  rw [rotationOf]
  split_ifs with h1 h2
  · have h := sandwich_orthogonal svd.U 1 svd.Vh svd.orthoU (by simp)
      svd.orthoV
    rwa [mul_one] at h
  · refine sandwich_orthogonal _ _ _ svd.orthoU
      (diagonal_sign_orthogonal _ ?_) svd.orthoV
    intro i
    by_cases hi : i = 1
    · rw [if_pos hi]; right; rfl
    · rw [if_neg hi]; exact signVec_cases A i
  · exact sandwich_orthogonal _ _ _ svd.orthoU
      (diagonal_sign_orthogonal _ (signVec_cases A)) svd.orthoV

/-- The composed block `R` has determinant `+1` in every non-degenerate
branch: the sign vector `d` and the rank-deficient branch correct exactly
the sign of `det(U) · det(V)`. -/
lemma rotationOf_det_one (A : Mat2) (svd : SVD2 A)
    (h0 : matrixRank2 A ≠ 0) : (rotationOf A svd).det = 1 := by
  have hA0 : ¬ A = 0 := by
    intro h
    rw [matrixRank2, if_pos h] at h0
    exact h0 rfl
  have hU2 := det_eq_one_or_neg_one_of_orth svd.U svd.orthoU
  have hV2 := det_eq_one_or_neg_one_of_orth svd.Vh svd.orthoV
  have hprod : svd.U.det * svd.Vh.det = 1 ∨ svd.U.det * svd.Vh.det = -1 := by
    rcases hU2 with hu | hu <;> rcases hV2 with hv | hv <;>
      rw [hu, hv] <;> norm_num
  have hdetA : A.det = svd.U.det * svd.Vh.det * (svd.S 0 * svd.S 1) := by
    have h2 := congrArg Matrix.det svd.factor
    rw [Matrix.det_mul, Matrix.det_mul, Matrix.det_diagonal,
      Fin.prod_univ_two] at h2
    rw [h2]
    ring
  have hS01 : 0 ≤ svd.S 0 * svd.S 1 := mul_nonneg (svd.nonneg 0) (svd.nonneg 1)
  rw [rotationOf]
  split_ifs with h1 h2
  · rw [Matrix.det_mul]
    rcases hprod with h | h
    · exact h
    · exfalso
      rw [h] at h2
      linarith
  · have hD : (Matrix.diagonal
        (fun i => if i = 1 then -1 else signVec A i)).det = -1 := by
      rw [Matrix.det_diagonal, Fin.prod_univ_two]
      norm_num [signVec]
    rw [Matrix.det_mul, Matrix.det_mul, hD]
    have hUV : svd.U.det * svd.Vh.det = -1 := by
      rcases hprod with h | h
      · exact absurd (h ▸ one_pos) h2
      · exact h
    have hre : svd.U.det * -1 * svd.Vh.det =
        -(svd.U.det * svd.Vh.det) := by ring
    rw [hre, hUV]
    norm_num
  · have hdet_ne : A.det ≠ 0 := by
      intro hd
      rw [matrixRank2, if_neg hA0, if_pos hd] at h1
      exact h1 rfl
    rw [Matrix.det_mul, Matrix.det_mul, Matrix.det_diagonal,
      Fin.prod_univ_two]
    by_cases hneg : A.det < 0
    · have h01 : signVec A 0 = 1 := by
        rw [signVec, if_neg]
        rintro ⟨-, habs⟩
        exact absurd habs (by decide)
      have h11 : signVec A 1 = -1 := by
        rw [signVec, if_pos ⟨hneg, rfl⟩]
      have hUV : svd.U.det * svd.Vh.det = -1 := by
        rcases hprod with h | h
        · exfalso
          rw [h, one_mul] at hdetA
          linarith
        · exact h
      have hre : svd.U.det * (signVec A 0 * signVec A 1) * svd.Vh.det =
          -(svd.U.det * svd.Vh.det) := by
        rw [h01, h11]
        ring
      rw [hre, hUV]
      norm_num
    · have hpos : 0 < A.det := lt_of_le_of_ne (le_of_not_lt hneg)
        (Ne.symm hdet_ne)
      have h01 : signVec A 0 = 1 := by
        rw [signVec, if_neg]
        rintro ⟨habs, -⟩
        exact hneg habs
      have h11 : signVec A 1 = 1 := by
        rw [signVec, if_neg]
        rintro ⟨habs, -⟩
        exact hneg habs
      have hUV : svd.U.det * svd.Vh.det = 1 := by
        rcases hprod with h | h
        · exact h
        · exfalso
          rw [h] at hdetA
          nlinarith
      have hre : svd.U.det * (signVec A 0 * signVec A 1) * svd.Vh.det =
          svd.U.det * svd.Vh.det := by
        rw [h01, h11]
        ring
      rw [hre, hUV]

/-! ## Claim theorems for the similarity transform -/

/-- **C7** — a 5-point correspondence whose source points (or destination
points) all coincide gives a zero covariance matrix, hence rank 0, and
`SimilarityTransform.estimate` explicitly reports failure: it returns
`False` together with the invalid sentinel transform (`none`, the model of
the all-NaN matrix).  No exception is raised and the zero-variance division
in the scale formula is never reached, since the rank-0 branch returns
first. -/
theorem estimate_degenerate_reports_failure (src dst : Pts5)
    (hdeg : (∀ i, src i = src 0) ∨ (∀ i, dst i = dst 0))
    (svd : SVD2 (covA src dst)) :
    SimilarityTransform.estimate src dst svd = (false, none) := by
  have hA : covA src dst = 0 := by
    rcases hdeg with h | h
    · have hsrc : src = fun _ => src 0 := funext h
      rw [hsrc]
      exact covA_const_src (src 0) dst
    · have hdst : dst = fun _ => dst 0 := funext h
      rw [hdst]
      exact covA_const_dst src (dst 0)
  have hrank : matrixRank2 (covA src dst) = 0 := by
    rw [hA, matrixRank2, if_pos rfl]
  have hum : umeyama src dst svd = none := by
    rw [umeyama, if_pos hrank]
  rw [SimilarityTransform.estimate, hum]
  rfl

/-- Witness for C7: five copies of the origin as both source and
destination. -/
theorem estimate_degenerate_reports_failure_witness :
    SimilarityTransform.estimate (fun _ _ => 0) (fun _ _ => 0) zeroSVD =
      (false, none) :=
  estimate_degenerate_reports_failure (fun _ _ => 0) (fun _ _ => 0)
    (Or.inl fun _ => rfl) zeroSVD

/-- **C8** — whenever `_umeyama` succeeds, the upper-left 2×2 block of the
returned transform is a scalar multiple of an orthogonal matrix of
determinant `+1` (a proper rotation): the sign vector `d` and the
rank-deficient branch guarantee the invariant. -/
theorem linear_block_is_scaled_proper_rotation (src dst : Pts5)
    (svd : SVD2 (covA src dst)) (T : Mat3)
    (hT : umeyama src dst svd = some T) :
    ∃ (c : ℚ) (R : Mat2), linearBlock T = c • R ∧ R * R.transpose = 1 ∧
      R.det = 1 := by
  rw [umeyama] at hT
  by_cases h0 : matrixRank2 (covA src dst) = 0
  · rw [if_pos h0] at hT
    cases hT
  · rw [if_neg h0] at hT
    simp only [Option.some.injEq] at hT
    refine ⟨scaleOf src (covA src dst) svd, rotationOf (covA src dst) svd,
      ?_, rotationOf_orthogonal _ svd, rotationOf_det_one _ svd h0⟩
    rw [← hT]
    ext i j
    have hi2 : ((i.castSucc : Fin 3) : ℕ) < 2 := by
      rw [Fin.coe_castSucc]
      exact i.isLt
    have hj2 : ((j.castSucc : Fin 3) : ℕ) < 2 := by
      rw [Fin.coe_castSucc]
      exact j.isLt
    rw [linearBlock, Matrix.of_apply, Matrix.of_apply, dif_pos hi2,
      dif_pos hj2, Matrix.smul_apply, smul_eq_mul]
    congr 1

/-- Witness for C8: the cross-point correspondence yields the identity
transform, whose linear block is `1 • 1`. -/
theorem linear_block_is_scaled_proper_rotation_witness :
    umeyama crossPts crossPts crossSVD = some 1 ∧
    ∃ (c : ℚ) (R : Mat2), linearBlock (1 : Mat3) = c • R ∧
      R * R.transpose = 1 ∧ R.det = 1 := by
  have hA : covA crossPts crossPts = (2 / 5 : ℚ) • 1 := by
    ext j k
    fin_cases j <;> fin_cases k <;>
      norm_num [covA, demean, ptsMean, crossPts, Fin.sum_univ_five,
        Matrix.smul_apply, Matrix.one_apply]
  have hAne : covA crossPts crossPts ≠ 0 := by
    rw [hA]
    intro h
    have h00 := congrFun (congrFun h 0) 0
    norm_num [Matrix.smul_apply, Matrix.one_apply] at h00
  have hdet : (covA crossPts crossPts).det = 4 / 25 := by
    rw [hA, Matrix.det_smul, Matrix.det_one]
    norm_num
  have hrank : matrixRank2 (covA crossPts crossPts) = 2 := by
    rw [matrixRank2, if_neg hAne, if_neg (by rw [hdet]; norm_num)]
  have hsign : signVec (covA crossPts crossPts) = fun _ => 1 := by
    funext i
    rw [signVec, if_neg]
    rintro ⟨habs, -⟩
    rw [hdet] at habs
    norm_num at habs
  have hR : rotationOf (covA crossPts crossPts) crossSVD = 1 := by
    rw [rotationOf, if_neg (by rw [hrank]; norm_num), hsign]
    have hU : crossSVD.U = 1 := rfl
    have hV : crossSVD.Vh = 1 := rfl
    rw [hU, hV, Matrix.diagonal_one, one_mul, one_mul]
  have hvar : srcVar crossPts = 4 / 5 := by
    rw [srcVar]
    norm_num [demean, ptsMean, crossPts, Fin.sum_univ_five, Fin.sum_univ_two,
      Matrix.cons_val_zero, Matrix.cons_val_one, Matrix.head_cons,
      Matrix.vecHead, Matrix.vecTail, Function.comp]
  have hscale : scaleOf crossPts (covA crossPts crossPts) crossSVD = 1 := by
    rw [scaleOf, hvar, hsign]
    have hS : crossSVD.S = fun _ => 2 / 5 := rfl
    rw [hS, Fin.sum_univ_two]
    norm_num
  have hum : umeyama crossPts crossPts crossSVD = some 1 := by
    rw [umeyama, if_neg (by rw [hrank]; norm_num)]
    simp only [hR, hscale, Option.some.injEq]
    ext i j
    fin_cases i <;> fin_cases j <;>
      norm_num [Matrix.of_apply, Matrix.one_apply, ptsMean, crossPts,
        Fin.sum_univ_five, Fin.sum_univ_two, Fin.ext_iff]
  exact ⟨hum, linear_block_is_scaled_proper_rotation crossPts crossPts
    crossSVD 1 hum⟩

end FaceRec
